import Mathlib

/-!
Verification of the tree/graph visualization core of `ast-visualizer.py` and
`cfg-visualizer.py`.

The embedding models:
* the AST value model handled by `ast.iter_fields` (a node = a kind tag plus an
  ordered field map whose values are nodes, lists, or scalars);
* `ASTVisualizer.get_node_id` / `add_edge` / `generic_visit` as explicit state
  passing (the mutable `self.graph` / `self.parent_node` become a `VisState`
  record; the stream of `str(uuid.uuid4())` draws becomes a function
  `supply : Nat → String` indexed by the number of draws made so far);
* `visualize_ast`'s syntax-error branch (the upstream parser is an external
  collaborator and is abstracted as a function returning `Except`);
* the classification catalogs (`NODE_CATEGORIES`, `NODE_EXPLANATIONS`, the
  second `Colors` class, which are the operative definitions in the source),
  `colorize`, `get_explanation`, and the recursive pretty-printer
  `prettify_dict` (`ast_to_dict` re-tags a node as `{'type':…, 'fields':…}`
  preserving structure exactly, so the printer is modelled directly on the
  same tree type);
* `draw_cfg`'s content escaping, marker-driven node styling and edge labels.
-/

/-- Scalar (non-node, non-list) attribute values occurring in AST fields:
integers, strings, booleans and `None`. -/
inductive Scalar where
  | int (n : Int)
  | str (s : String)
  | bool (b : Bool)
  | none
deriving DecidableEq

mutual
/-- A tree node as consumed by `ast.iter_fields`: a structural kind tag
(the Python class name) and an ordered list of named fields. -/
inductive TreeNode where
  | mk (kind : String) (fields : Fields)
inductive Fields where
  | nil
  | cons (name : String) (v : FieldV) (rest : Fields)
/-- A field value: a nested node, a list, or a scalar. -/
inductive FieldV where
  | node (t : TreeNode)
  | flist (items : Items)
  | scalar (s : Scalar)
inductive Items where
  | nil
  | cons (v : FieldV) (rest : Items)
end

/-- Python `str()` of a scalar, as used inside the f-strings of
`get_node_label`. -/
def scalarStr : Scalar → String
  | .int n => toString n
  | .str s => s
  | .bool b => if b then "True" else "False"
  | .none => "None"

/-- Attribute lookup `node.<name>` on the field map, stringified; the label
rules of `get_node_label` only reach this for fields that hold a scalar
(`id`, `value`, `name`, `arg`). -/
def attrStr (name : String) : Fields → String
  | .nil => ""
  | .cons n v rest => if n = name then
      (match v with | .scalar s => scalarStr s | _ => "") else attrStr name rest

/-- Embedding of `ASTVisualizer.get_node_label` (src/ast-visualizer.py:32-67):
`Name` appends `id`, `Constant` appends `value`, `FunctionDef` appends `name`,
`arg` appends `arg`; the `ast.operator` branch and the default branch both
return just the kind tag. -/
def get_node_label : TreeNode → String
  | .mk kind fields =>
    if kind = "Name" then kind ++ "\nid=" ++ attrStr "id" fields
    else if kind = "Constant" then kind ++ "\nvalue=" ++ attrStr "value" fields
    else if kind = "FunctionDef" then kind ++ "\nname=" ++ attrStr "name" fields
    else if kind = "arg" then kind ++ "\narg=" ++ attrStr "arg" fields
    else kind

/-- State of one `ASTVisualizer` instance during a conversion run:
the accumulated graphviz node statements (identity, label), the accumulated
edge statements (source identity, target identity), the mutable
`self.parent_node`, and the number of identity draws made so far. -/
structure VisState where
  nodes : List (String × String)
  edges : List (String × String)
  parent_node : Option String
  nextIdx : Nat
deriving DecidableEq

/-- Embedding of `ASTVisualizer.get_node_id` (src/ast-visualizer.py:25-30):
the source returns `str(uuid.uuid4())`, a fresh draw from a random source;
the embedding models the draw sequence as `supply` and returns the next
undrawn element. -/
def get_node_id (supply : Nat → String) (st : VisState) : String × VisState :=
  (supply st.nextIdx, { st with nextIdx := st.nextIdx + 1 })

/-- Embedding of `ASTVisualizer.add_edge` (src/ast-visualizer.py:69-88):
allocate an identity, record the node with its label, and if `parent_id` is
truthy (a non-`None`, non-empty string) record an edge parent → node.
Returns the new node's identity. -/
def add_edge (supply : Nat → String) (parent_id : Option String) (node : TreeNode)
    (st : VisState) : String × VisState :=
  let p := get_node_id supply st
  let node_id := p.1
  let st2 := { p.2 with nodes := p.2.nodes ++ [(node_id, get_node_label node)] }
  match parent_id with
  | some q =>
    if q = "" then (node_id, st2)
    else (node_id, { st2 with edges := st2.edges ++ [(q, node_id)] })
  | none => (node_id, st2)

mutual
/-- Embedding of `ASTVisualizer.generic_visit` (src/ast-visualizer.py:90-126).
`ASTVisualizer` defines no `visit_<Kind>` methods, so `ast.NodeVisitor.visit`
always dispatches here. The node is recorded via `add_edge`, the freshly
allocated identity becomes `self.parent_node` while the children are visited
in field order, and the previous `self.parent_node` is restored afterwards. -/
def generic_visit (supply : Nat → String) (t : TreeNode) (st : VisState) : VisState :=
  match t with
  | .mk kind fields =>
    let parent_id := st.parent_node
    let p := add_edge supply parent_id (.mk kind fields) st
    let current_parent := p.1
    let st1 := p.2
    let old_parent := st1.parent_node
    let st2 := { st1 with parent_node := some current_parent }
    let st3 := visit_fields supply fields st2
    { st3 with parent_node := old_parent }
/-- The `for field, value in ast.iter_fields(node)` loop of `generic_visit`. -/
def visit_fields (supply : Nat → String) (fs : Fields) (st : VisState) : VisState :=
  match fs with
  | .nil => st
  | .cons _ v rest => visit_fields supply rest (visit_field_value supply v st)
/-- One iteration of the field loop: list fields iterate their items, node
fields recurse, scalar fields are skipped. -/
def visit_field_value (supply : Nat → String) (v : FieldV) (st : VisState) : VisState :=
  match v with
  | .node t => generic_visit supply t st
  | .flist items => visit_items supply items st
  | .scalar _ => st
/-- The `for item in value` loop over a list field: only items that are AST
nodes are visited. -/
def visit_items (supply : Nat → String) (items : Items) (st : VisState) : VisState :=
  match items with
  | .nil => st
  | .cons (.node t) rest => visit_items supply rest (generic_visit supply t st)
  | .cons (.flist _) rest => visit_items supply rest st
  | .cons (.scalar _) rest => visit_items supply rest st
end

/-- The `(nodes, edges)` graph artifact accumulated in `self.graph`. -/
structure GraphOut where
  nodes : List (String × String)
  edges : List (String × String)
deriving DecidableEq

/-- The conversion entry point: a fresh `ASTVisualizer` (empty graph, since
`__init__` sets `parent_node = None`) visiting the root, as performed by
`visualize_ast` (src/ast-visualizer.py:144-145). -/
def convert (supply : Nat → String) (t : TreeNode) : GraphOut :=
  let st := generic_visit supply t { nodes := [], edges := [], parent_node := none, nextIdx := 0 }
  { nodes := st.nodes, edges := st.edges }

mutual
/-- Number of tree nodes reached by the traversal rooted at `t`. -/
def sizeNode : TreeNode → Nat
  | .mk _ fields => 1 + sizeFields fields
def sizeFields : Fields → Nat
  | .nil => 0
  | .cons _ v rest => sizeFieldValue v + sizeFields rest
def sizeFieldValue : FieldV → Nat
  | .node t => sizeNode t
  | .flist items => sizeItems items
  | .scalar _ => 0
def sizeItems : Items → Nat
  | .nil => 0
  | .cons (.node t) rest => sizeNode t + sizeItems rest
  | .cons (.flist _) rest => sizeItems rest
  | .cons (.scalar _) rest => sizeItems rest
end

/-- The identities drawn for `n` consecutive allocations starting at draw
index `idx`. -/
def idList (supply : Nat → String) (idx : Nat) : Nat → List String
  | 0 => []
  | n + 1 => supply idx :: idList supply (idx + 1) n

/-- The edge recorded for a node allocated at draw index `idx` under the
given active parent: none when the parent is `None` or empty (Python
truthiness in `add_edge`), else one edge parent → node. -/
def selfEdge (supply : Nat → String) (parent : Option String) (idx : Nat) :
    List (String × String) :=
  match parent with
  | some q => if q = "" then [] else [(q, supply idx)]
  | none => []

mutual
/-- Modelled from the spec (§4.2 and the §9 design note): the same depth-first
conversion with the active parent threaded as an explicit parameter and each
child visited with `some` of its parent's identity — the pure form against
which the stateful traversal is proved equal. -/
def specNode (supply : Nat → String) (parent : Option String) (idx : Nat) :
    TreeNode → GraphOut
  | .mk kind fields =>
    let myId := supply idx
    let children := specFields supply (some myId) (idx + 1) fields
    { nodes := (myId, get_node_label (.mk kind fields)) :: children.nodes,
      edges := selfEdge supply parent idx ++ children.edges }
def specFields (supply : Nat → String) (parent : Option String) (idx : Nat) :
    Fields → GraphOut
  | .nil => { nodes := [], edges := [] }
  | .cons _ v rest =>
    let g1 := specFieldValue supply parent idx v
    let g2 := specFields supply parent (idx + sizeFieldValue v) rest
    { nodes := g1.nodes ++ g2.nodes, edges := g1.edges ++ g2.edges }
def specFieldValue (supply : Nat → String) (parent : Option String) (idx : Nat) :
    FieldV → GraphOut
  | .node t => specNode supply parent idx t
  | .flist items => specItems supply parent idx items
  | .scalar _ => { nodes := [], edges := [] }
def specItems (supply : Nat → String) (parent : Option String) (idx : Nat) :
    Items → GraphOut
  | .nil => { nodes := [], edges := [] }
  | .cons (.node t) rest =>
    let g1 := specNode supply parent idx t
    let g2 := specItems supply parent (idx + sizeNode t) rest
    { nodes := g1.nodes ++ g2.nodes, edges := g1.edges ++ g2.edges }
  | .cons (.flist _) rest => specItems supply parent idx rest
  | .cons (.scalar _) rest => specItems supply parent idx rest
end

/-! Classification catalogs and the pretty-printer. The source defines the
`Colors` class, `NODE_CATEGORIES` and `NODE_EXPLANATIONS` twice; the second
definitions (src/ast-visualizer.py:340-381) shadow the first and are the ones
in effect for `colorize` / `get_explanation`, so those are embedded. -/

namespace Colors
def RESET : String := "\x1b[0m"
def STATEMENT : String := "\x1b[92m"
def EXPRESSION : String := "\x1b[94m"
def CONTROL_FLOW : String := "\x1b[95m"
def DEFINITION : String := "\x1b[96m"
def OPERATOR : String := "\x1b[93m"
def LITERAL : String := "\x1b[91m"
def ATTRIBUTE : String := "\x1b[97m"
end Colors

/-- The operative `NODE_CATEGORIES` table (src/ast-visualizer.py:350-366). -/
def NODE_CATEGORIES : List (String × String) :=
  [("FunctionDef", "DEFINITION"), ("ClassDef", "DEFINITION"),
   ("AsyncFunctionDef", "DEFINITION"),
   ("If", "CONTROL_FLOW"), ("For", "CONTROL_FLOW"), ("While", "CONTROL_FLOW"),
   ("Call", "EXPRESSION"), ("Name", "EXPRESSION"), ("Attribute", "EXPRESSION"),
   ("Constant", "LITERAL"),
   ("Return", "STATEMENT"), ("Assign", "STATEMENT"),
   ("Add", "OPERATOR"), ("Sub", "OPERATOR"), ("Mult", "OPERATOR")]

/-- The operative `NODE_EXPLANATIONS` table (src/ast-visualizer.py:368-381). -/
def NODE_EXPLANATIONS : List (String × String) :=
  [("Module", "Root node of the AST"),
   ("FunctionDef", "Function definition (def keyword)"),
   ("ClassDef", "Class definition (class keyword)"),
   ("If", "If statement for conditional execution"),
   ("For", "For loop for iteration"),
   ("Call", "Function or method call"),
   ("Name", "Variable or function name"),
   ("Constant", "Literal value (number, string, etc.)"),
   ("Return", "Return statement"),
   ("Assign", "Assignment statement (=)"),
   ("arguments", "Function arguments definition"),
   ("arg", "Single function argument")]

/-- The `NODE_CATEGORIES.get(node_type, 'ATTRIBUTE')` lookup inside
`colorize` (src/ast-visualizer.py:385). -/
def categoryOf (node_type : String) : String :=
  (NODE_CATEGORIES.lookup node_type).getD "ATTRIBUTE"

/-- The `getattr(Colors, category)` access inside `colorize`
(src/ast-visualizer.py:386). All categories produced by `categoryOf` are
attributes of `Colors`; the final branch is unreachable from `colorize`. -/
def colorFor (category : String) : String :=
  if category = "STATEMENT" then Colors.STATEMENT
  else if category = "EXPRESSION" then Colors.EXPRESSION
  else if category = "CONTROL_FLOW" then Colors.CONTROL_FLOW
  else if category = "DEFINITION" then Colors.DEFINITION
  else if category = "OPERATOR" then Colors.OPERATOR
  else if category = "LITERAL" then Colors.LITERAL
  else if category = "ATTRIBUTE" then Colors.ATTRIBUTE
  else ""

/-- Embedding of `colorize` (src/ast-visualizer.py:383-387). -/
def colorize (node_type : String) (text : String) : String :=
  colorFor (categoryOf node_type) ++ text ++ Colors.RESET

/-- Embedding of `get_explanation` (src/ast-visualizer.py:389-396). -/
def get_explanation (node_type : String) (show_explanations : Bool) : String :=
  if show_explanations = false then ""
  else
    let explanation := (NODE_EXPLANATIONS.lookup node_type).getD ""
    if explanation ≠ "" then " # " ++ explanation else ""

/-- Python `repr()` of a scalar (strings are modelled without escape
characters, so `repr` wraps them in single quotes). -/
def reprScalar : Scalar → String
  | .int n => toString n
  | .str s => "'" ++ s ++ "'"
  | .bool b => if b then "True" else "False"
  | .none => "None"

mutual
/-- Python `repr()` of a non-dict list item in `prettify_dict`'s list branch
(src/ast-visualizer.py:440-443): scalars use their literal form; a nested
list or dict uses Python's container repr. -/
def reprFieldValue : FieldV → String
  | .node t => reprTree t
  | .flist items => "[" ++ reprItems items ++ "]"
  | .scalar s => reprScalar s
def reprTree : TreeNode → String
  | .mk k fs =>
    "\x7b'type': " ++ reprScalar (.str k) ++ ", 'fields': \x7b" ++
      reprFields fs ++ "\x7d\x7d"
def reprFields : Fields → String
  | .nil => ""
  | .cons n v .nil => reprScalar (.str n) ++ ": " ++ reprFieldValue v
  | .cons n v rest =>
    reprScalar (.str n) ++ ": " ++ reprFieldValue v ++ ", " ++ reprFields rest
def reprItems : Items → String
  | .nil => ""
  | .cons v .nil => reprFieldValue v
  | .cons v rest => reprFieldValue v ++ ", " ++ reprItems rest
end

/-- Python string repetition `"  " * indent_level`. -/
def strMul (s : String) : Nat → String
  | 0 => ""
  | n + 1 => s ++ strMul s n

/-- Python `sep.join(strs)`. -/
def joinSep (sep : String) : List String → String
  | [] => ""
  | [x] => x
  | x :: y :: rest => x ++ sep ++ joinSep sep (y :: rest)

/-- The annotated kind token built first by `prettify_dict`
(src/ast-visualizer.py:417-420): the colorized kind, with the explanation
appended when it is non-empty. -/
def prettifyHead (node_type : String) (show_explanations : Bool) : String :=
  let explanation := get_explanation node_type show_explanations
  if explanation ≠ "" then
    colorize node_type node_type ++ explanation
  else colorize node_type node_type

mutual
/-- Embedding of `prettify_dict` (src/ast-visualizer.py:410-455).
`ast_to_dict` turns a node into `{'type': kind, 'fields': {...}}` preserving
the kind and the ordered field map exactly, so the printer is modelled
directly on the tree. A node with no fields prints as just the annotated
kind token; otherwise the fields are printed one per line, joined with
commas, with a closing parenthesis on its own line at `indent`. -/
def prettify_dict (t : TreeNode) (indent_level : Nat) (show_explanations : Bool) :
    String :=
  match t with
  | .mk node_type fields =>
    let indent := strMul "  " indent_level
    let head := prettifyHead node_type show_explanations
    match fields with
    | .nil => head
    | fs =>
      let field_strs := prettify_fields fs indent indent_level show_explanations
      if field_strs = [] then head ++ "(" ++ ")"
      else
        head ++ "(" ++ "\n" ++ joinSep ",\n" field_strs ++ "\n" ++ indent ++ ")"
/-- The field loop of `prettify_dict` (src/ast-visualizer.py:429-447),
producing one `field_str` per field. -/
def prettify_fields (fs : Fields) (indent : String) (indent_level : Nat)
    (show_explanations : Bool) : List String :=
  match fs with
  | .nil => []
  | .cons name v rest =>
    (indent ++ "  " ++ (match v with
      | .node t => name ++ "=" ++ prettify_dict t (indent_level + 1) show_explanations
      | .flist .nil => name ++ "=[]"
      | .flist (.cons i irest) =>
        name ++ "=[\n" ++ indent ++ "    " ++
          joinSep (",\n" ++ indent ++ "    ")
            (prettify_items (.cons i irest) indent_level show_explanations) ++
          "\n" ++ indent ++ "  ]"
      | .scalar s => name ++ "=" ++ reprScalar s))
    :: prettify_fields rest indent indent_level show_explanations
/-- The list-item rendering of `prettify_dict` (src/ast-visualizer.py:440-443):
dict items recurse two levels deeper, all other items use `repr`. -/
def prettify_items (items : Items) (indent_level : Nat) (show_explanations : Bool) :
    List String :=
  match items with
  | .nil => []
  | .cons (.node t) rest =>
    prettify_dict t (indent_level + 2) show_explanations
      :: prettify_items rest indent_level show_explanations
  | .cons v rest => reprFieldValue v :: prettify_items rest indent_level show_explanations
end

/-- Number of occurrences of a character in a string. -/
def countChar (c : Char) (s : String) : Nat := s.data.count c

/-- A string free of parentheses, square brackets and the styling escape
character. -/
def cleanStr (s : String) : Bool :=
  s.data.all (fun c => c != '(' && c != ')' && c != '[' && c != ']' && c != '\x1b')

mutual
/-- Trees whose atoms (kind tags, field names, scalar representations) are
free of bracket and escape characters, and whose list fields hold only nodes
and scalars. -/
def cleanTree : TreeNode → Bool
  | .mk k fs => cleanStr k && cleanFields fs
def cleanFields : Fields → Bool
  | .nil => true
  | .cons name v rest => cleanStr name && cleanFieldValue v && cleanFields rest
def cleanFieldValue : FieldV → Bool
  | .node t => cleanTree t
  | .flist items => cleanItems items
  | .scalar s => cleanStr (reprScalar s)
def cleanItems : Items → Bool
  | .nil => true
  | .cons (.node t) rest => cleanTree t && cleanItems rest
  | .cons (.scalar s) rest => cleanStr (reprScalar s) && cleanItems rest
  | .cons (.flist _) _ => false
end

/-- Whether a node's field mapping is empty. -/
def fieldsEmpty : TreeNode → Bool
  | .mk _ .nil => true
  | .mk _ (.cons _ _ _) => false

/-- The kind tag of a node. -/
def kindOf : TreeNode → String
  | .mk k _ => k

/-- Balance of printed output: as many `(` as `)`, and every `[` is matched
by a `]` except for the one `[` inside each ANSI styling escape sequence
(`ESC [ … m`), of which there is exactly one per escape character. -/
def balStr (s : String) : Prop :=
  countChar '(' s = countChar ')' s ∧
  countChar '[' s = countChar ']' s + countChar '\x1b' s

/-! Control-flow graph renderer (src/cfg-visualizer.py). The CFG model is
supplied already built by an external collaborator; `draw_cfg` only escapes
each node's content, picks shapes/colors from the special marker, and labels
edges with their condition when it is truthy. -/

/-- A CFG node: identity, free-text content, and the special marker
(`"initial"`, `"terminal"`, or anything else). -/
structure CFGNode where
  id : Nat
  content : String
  special : String
deriving DecidableEq

/-- A CFG edge with an optional branch condition. -/
structure CFGEdge where
  source : Nat
  target : Nat
  condition : Option String
deriving DecidableEq

/-- The `cfg` argument of `draw_cfg`: nodes and edges. -/
structure ControlFlowGraph where
  nodes : List CFGNode
  edges : List CFGEdge

/-- A rendered graphviz node statement: identity, label markup, and the
shape/fill/border styling attributes chosen by `draw_cfg`. -/
structure DotNode where
  id : String
  label : String
  shape : String
  fillcolor : String
  color : String
deriving DecidableEq

/-- A rendered graphviz edge statement with an optional label. -/
structure DotEdge where
  source : String
  target : String
  label : Option String
deriving DecidableEq

/-- Python `str.replace(old, new)` for a single-character pattern, which is
the only form used by `draw_cfg` (patterns `&`, `<`, `>`, `\n`). -/
def replaceChar (old : Char) (new : List Char) : List Char → List Char
  | [] => []
  | c :: cs => (if c = old then new else [c]) ++ replaceChar old new cs

/-- The four successive replacements applied to a node's content by
`draw_cfg` (src/cfg-visualizer.py:27-29): `&`→`&amp;`, then `<`→`&lt;`, then
`>`→`&gt;`, then newline→`<br/>`. -/
def escapeChain (l : List Char) : List Char :=
  replaceChar '\n' "<br/>".data
    (replaceChar '>' "&gt;".data
      (replaceChar '<' "&lt;".data
        (replaceChar '&' "&amp;".data l)))

/-- The escaped content string. -/
def escapeContent (s : String) : String := String.mk (escapeChain s.data)

/-- Modelled from the spec (§4.4): the intended single-pass escaping of one
character — each original character is mapped to its entity or break token,
and escape outputs are never re-escaped. -/
def escapeCharSpec (c : Char) : List Char :=
  if c = '&' then "&amp;".data
  else if c = '<' then "&lt;".data
  else if c = '>' then "&gt;".data
  else if c = '\n' then "<br/>".data
  else [c]

def concatMapChars (f : Char → List Char) : List Char → List Char
  | [] => []
  | c :: cs => f c ++ concatMapChars f cs

/-- The single-pass escaping of a whole content string. -/
def escapeOnePass (s : String) : String :=
  String.mk (concatMapChars escapeCharSpec s.data)

/-- Rendering of one CFG node (src/cfg-visualizer.py:25-41): the escaped
content wrapped in `<…>` HTML-label brackets, and shape/colors selected by
the special marker; any marker other than `initial`/`terminal` keeps the
graph-level defaults `box`/`lightblue`/`darkblue`. -/
def drawNode (n : CFGNode) : DotNode :=
  let content := escapeContent n.content
  let label := "<" ++ content ++ ">"
  if n.special = "initial" then
    { id := toString n.id, label := label, shape := "circle",
      fillcolor := "lightgreen", color := "darkgreen" }
  else if n.special = "terminal" then
    { id := toString n.id, label := label, shape := "doublecircle",
      fillcolor := "mistyrose", color := "darkred" }
  else
    { id := toString n.id, label := label, shape := "box",
      fillcolor := "lightblue", color := "darkblue" }

/-- Rendering of one CFG edge (src/cfg-visualizer.py:44-51): the condition is
attached verbatim as the label when truthy (non-`None`, non-empty), else the
edge is unlabeled. -/
def drawEdge (e : CFGEdge) : DotEdge :=
  match e.condition with
  | some c =>
    if c = "" then { source := toString e.source, target := toString e.target, label := none }
    else { source := toString e.source, target := toString e.target, label := some c }
  | none => { source := toString e.source, target := toString e.target, label := none }

/-- Embedding of `draw_cfg` (src/cfg-visualizer.py:9-53): the rendered
node and edge statements, in input order. -/
def draw_cfg (cfg : ControlFlowGraph) : List DotNode × List DotEdge :=
  (cfg.nodes.map drawNode, cfg.edges.map drawEdge)

/-- Result of `visualize_ast`: either the rendered graph artifact or an
error-message string. -/
inductive VisResult where
  | image (g : GraphOut)
  | message (s : String)
deriving DecidableEq

/-- Embedding of `visualize_ast` (src/ast-visualizer.py:128-153). The
upstream parser `ast.parse` is an external collaborator, abstracted as a
function returning either a tree or the syntax-error value; on a parse
failure the function returns the `"Syntax Error: "`-prefixed message without
running the visitor (the PNG rendering of the success path and the generic
`Exception` fallback are I/O plumbing outside the modelled core). -/
def visualize_ast (parse : String → Except String TreeNode)
    (supply : Nat → String) (code : String) : VisResult :=
  match parse code with
  | .ok tree => .image (convert supply tree)
  | .error e => .message ("Syntax Error: " ++ e)

/-! Concrete inputs used by witnesses and counterexamples. -/

/-- An injective, nowhere-empty identity supply: the draw at index `n` is
`n + 1` copies of `u`. -/
def supplyW : Nat → String := fun n => String.mk (List.replicate (n + 1) 'u')

/-- A simple readable identity supply. -/
def supplyNum : Nat → String := fun n => "id" ++ toString n

/-- Two identity supplies that agree on their first five draws. -/
def supplyA : Nat → String := fun n => if n < 5 then "a" ++ toString n else "A"

/-- See `supplyA`. -/
def supplyB : Nat → String := fun n => if n < 5 then "a" ++ toString n else "B"

/-- The `Name` node of `x = 42`: `Name(id='x')`. -/
def nameX : TreeNode := .mk "Name" (.cons "id" (.scalar (.str "x")) .nil)

/-- The `Constant` node of `x = 42`: `Constant(value=42)`. -/
def const42 : TreeNode := .mk "Constant" (.cons "value" (.scalar (.int 42)) .nil)

/-- The assignment node of `x = 42`. -/
def assignX42 : TreeNode :=
  .mk "Assign"
    (.cons "targets" (.flist (.cons (.node nameX) .nil))
      (.cons "value" (.node const42) .nil))

/-- The tree of the single assignment `x = 42` as described by the spec
scenario: a root whose one assignment child has a name-`x` target and a
literal-`42` value. -/
def xEq42 : TreeNode :=
  .mk "Module"
    (.cons "body" (.flist (.cons (.node assignX42) .nil))
      (.cons "type_ignores" (.flist .nil) .nil))

/-- A field-less node (a `Store` expression context). -/
def storeNode : TreeNode := .mk "Store" .nil

/-- A parser stub that always fails with a fixed syntax-error value. -/
def parseFail : String → Except String TreeNode := fun _ => .error "invalid syntax"

/-- CFG scenario: an initial node, a terminal node, a plain node, one
unconditional edge and one conditional edge. -/
def cfgNode0 : CFGNode := { id := 0, content := "start", special := "initial" }

/-- See `cfgNode0`. -/
def cfgNode1 : CFGNode := { id := 1, content := "end", special := "terminal" }

/-- See `cfgNode0`. -/
def cfgNode2 : CFGNode := { id := 2, content := "i = i + 1", special := "none" }

/-- See `cfgNode0`. -/
def cfgEdge0 : CFGEdge := { source := 0, target := 2, condition := none }

/-- See `cfgNode0`. -/
def cfgEdge1 : CFGEdge := { source := 2, target := 1, condition := some "i % 2 == 0" }

/-- See `cfgNode0`. -/
def cfgW : ControlFlowGraph :=
  { nodes := [cfgNode0, cfgNode1, cfgNode2], edges := [cfgEdge0, cfgEdge1] }

/-- Explicit description of `add_edge`'s effect. -/
theorem add_edge_eq (supply : Nat → String) (parent_id : Option String)
    (node : TreeNode) (st : VisState) :
    add_edge supply parent_id node st =
      (supply st.nextIdx,
       { nodes := st.nodes ++ [(supply st.nextIdx, get_node_label node)],
         edges := st.edges ++ selfEdge supply parent_id st.nextIdx,
         parent_node := st.parent_node,
         nextIdx := st.nextIdx + 1 }) := by
  cases parent_id with
  | none => simp [add_edge, get_node_id, selfEdge]
  | some q =>
    by_cases h : q = "" <;> simp [add_edge, get_node_id, selfEdge, h]

mutual
/-- The stateful traversal equals the pure explicitly-parent-threaded form:
it appends exactly the nodes and edges of `specNode`, advances the draw
counter by the subtree size, and restores `parent_node`. -/
theorem generic_visit_eq (supply : Nat → String) (t : TreeNode) (st : VisState) :
    generic_visit supply t st =
      { nodes := st.nodes ++ (specNode supply st.parent_node st.nextIdx t).nodes,
        edges := st.edges ++ (specNode supply st.parent_node st.nextIdx t).edges,
        parent_node := st.parent_node,
        nextIdx := st.nextIdx + sizeNode t } := by
  match t with
  | .mk kind fields =>
    rw [generic_visit, add_edge_eq]
    rw [visit_fields_eq supply fields]
    simp [specNode, sizeNode, List.append_assoc]
    omega
theorem visit_fields_eq (supply : Nat → String) (fs : Fields) (st : VisState) :
    visit_fields supply fs st =
      { nodes := st.nodes ++ (specFields supply st.parent_node st.nextIdx fs).nodes,
        edges := st.edges ++ (specFields supply st.parent_node st.nextIdx fs).edges,
        parent_node := st.parent_node,
        nextIdx := st.nextIdx + sizeFields fs } := by
  match fs with
  | .nil => simp [visit_fields, specFields, sizeFields]
  | .cons n v rest =>
    rw [visit_fields, visit_field_value_eq supply v, visit_fields_eq supply rest]
    simp [specFields, sizeFields, List.append_assoc]
    omega
theorem visit_field_value_eq (supply : Nat → String) (v : FieldV) (st : VisState) :
    visit_field_value supply v st =
      { nodes := st.nodes ++ (specFieldValue supply st.parent_node st.nextIdx v).nodes,
        edges := st.edges ++ (specFieldValue supply st.parent_node st.nextIdx v).edges,
        parent_node := st.parent_node,
        nextIdx := st.nextIdx + sizeFieldValue v } := by
  match v with
  | .node t => rw [visit_field_value, generic_visit_eq supply t]; rfl
  | .flist items => rw [visit_field_value, visit_items_eq supply items]; rfl
  | .scalar s => simp [visit_field_value, specFieldValue, sizeFieldValue]
theorem visit_items_eq (supply : Nat → String) (items : Items) (st : VisState) :
    visit_items supply items st =
      { nodes := st.nodes ++ (specItems supply st.parent_node st.nextIdx items).nodes,
        edges := st.edges ++ (specItems supply st.parent_node st.nextIdx items).edges,
        parent_node := st.parent_node,
        nextIdx := st.nextIdx + sizeItems items } := by
  match items with
  | .nil => simp [visit_items, specItems, sizeItems]
  | .cons (.node t) rest =>
    rw [visit_items, generic_visit_eq supply t, visit_items_eq supply rest]
    simp [specItems, sizeItems, List.append_assoc]
    omega
  | .cons (.flist l) rest =>
    rw [visit_items, visit_items_eq supply rest]
    simp [specItems, sizeItems]
  | .cons (.scalar s) rest =>
    rw [visit_items, visit_items_eq supply rest]
    simp [specItems, sizeItems]
end

/-- The conversion result in pure form. -/
theorem convert_eq (supply : Nat → String) (t : TreeNode) :
    convert supply t =
      { nodes := (specNode supply none 0 t).nodes,
        edges := (specNode supply none 0 t).edges } := by
  rw [convert, generic_visit_eq]
  simp

/-- Length of an identity segment. -/
theorem idList_length (supply : Nat → String) (idx n : Nat) :
    (idList supply idx n).length = n := by
  induction n generalizing idx with
  | zero => rfl
  | succ m ih => simp [idList, ih]

/-- Splitting an identity segment. -/
theorem idList_append (supply : Nat → String) (idx m n : Nat) :
    idList supply idx (m + n) = idList supply idx m ++ idList supply (idx + m) n := by
  induction m generalizing idx with
  | zero => simp [idList]
  | succ k ih =>
    have h1 : k + 1 + n = (k + n) + 1 := by omega
    have h2 : idx + (k + 1) = (idx + 1) + k := by omega
    rw [h1, idList, idList, h2, ih (idx + 1)]
    simp

/-- Membership in an identity segment. -/
theorem mem_idList (supply : Nat → String) (idx n : Nat) (a : String) :
    a ∈ idList supply idx n ↔ ∃ i, idx ≤ i ∧ i < idx + n ∧ supply i = a := by
  induction n generalizing idx with
  | zero =>
    simp only [idList, List.not_mem_nil, false_iff]
    rintro ⟨i, h1, h2, h3⟩
    omega
  | succ m ih =>
    simp only [idList, List.mem_cons, ih (idx + 1)]
    constructor
    · rintro (rfl | ⟨i, h1, h2, h3⟩)
      · exact ⟨idx, by omega, by omega, rfl⟩
      · exact ⟨i, by omega, by omega, h3⟩
    · rintro ⟨i, h1, h2, h3⟩
      rcases Nat.eq_or_lt_of_le h1 with rfl | hlt
      · exact Or.inl h3.symm
      · exact Or.inr ⟨i, by omega, by omega, h3⟩

/-- Occurrence count of a drawn identity in a segment, for a collision-free
supply. -/
theorem count_idList (supply : Nat → String) (hinj : Function.Injective supply)
    (idx n i : Nat) :
    (idList supply idx n).count (supply i) =
      if idx ≤ i ∧ i < idx + n then 1 else 0 := by
  induction n generalizing idx with
  | zero =>
    simp only [idList, List.count_nil]
    rw [if_neg]
    omega
  | succ m ih =>
    by_cases hii : i = idx
    · subst hii
      rw [idList, List.count_cons_self, ih (i + 1)]
      have h1 : ¬ (i + 1 ≤ i ∧ i < i + 1 + m) := by omega
      have h2 : i ≤ i ∧ i < i + (m + 1) := by omega
      rw [if_neg h1, if_pos h2]
    · rw [idList, List.count_cons_of_ne (fun h => hii (hinj h)), ih (idx + 1)]
      by_cases hr : idx + 1 ≤ i ∧ i < idx + 1 + m
      · have h2 : idx ≤ i ∧ i < idx + (m + 1) := by omega
        rw [if_pos hr, if_pos h2]
      · have h2 : ¬ (idx ≤ i ∧ i < idx + (m + 1)) := by omega
        rw [if_neg hr, if_neg h2]

/-- A segment of a collision-free supply has no duplicates. -/
theorem nodup_idList (supply : Nat → String) (hinj : Function.Injective supply)
    (idx n : Nat) : (idList supply idx n).Nodup := by
  induction n generalizing idx with
  | zero => exact List.nodup_nil
  | succ m ih =>
    rw [idList, List.nodup_cons]
    refine ⟨fun hmem => ?_, ih (idx + 1)⟩
    rw [mem_idList] at hmem
    obtain ⟨i, h1, h2, h3⟩ := hmem
    have := hinj h3
    omega

mutual
/-- The identities recorded for a subtree are exactly the consecutive draws
starting at its allocation index. -/
theorem specNode_ids (supply : Nat → String) (parent : Option String) (idx : Nat)
    (t : TreeNode) :
    (specNode supply parent idx t).nodes.map Prod.fst =
      idList supply idx (sizeNode t) := by
  match t with
  | .mk kind fields =>
    rw [specNode, sizeNode, Nat.add_comm 1, idList]
    simp [specFields_ids supply (some (supply idx)) (idx + 1) fields]
theorem specFields_ids (supply : Nat → String) (parent : Option String) (idx : Nat)
    (fs : Fields) :
    (specFields supply parent idx fs).nodes.map Prod.fst =
      idList supply idx (sizeFields fs) := by
  match fs with
  | .nil => rfl
  | .cons n v rest =>
    rw [specFields, sizeFields, idList_append]
    simp [specFieldValue_ids supply parent idx v,
      specFields_ids supply parent (idx + sizeFieldValue v) rest]
theorem specFieldValue_ids (supply : Nat → String) (parent : Option String)
    (idx : Nat) (v : FieldV) :
    (specFieldValue supply parent idx v).nodes.map Prod.fst =
      idList supply idx (sizeFieldValue v) := by
  match v with
  | .node t => exact specNode_ids supply parent idx t
  | .flist items => exact specItems_ids supply parent idx items
  | .scalar s => rfl
theorem specItems_ids (supply : Nat → String) (parent : Option String) (idx : Nat)
    (items : Items) :
    (specItems supply parent idx items).nodes.map Prod.fst =
      idList supply idx (sizeItems items) := by
  match items with
  | .nil => rfl
  | .cons (.node t) rest =>
    rw [specItems, sizeItems, idList_append]
    simp [specNode_ids supply parent idx t,
      specItems_ids supply parent (idx + sizeNode t) rest]
  | .cons (.flist l) rest =>
    rw [specItems, sizeItems]
    exact specItems_ids supply parent idx rest
  | .cons (.scalar s) rest =>
    rw [specItems, sizeItems]
    exact specItems_ids supply parent idx rest
end

/-- Every tree has at least one node. -/
theorem sizeNode_pos (t : TreeNode) : 1 ≤ sizeNode t := by
  match t with
  | .mk k fs => rw [sizeNode]; omega

/-- Peeling the first identity off a non-empty segment. -/
theorem idList_cons_back (supply : Nat → String) (idx n : Nat) (h : 1 ≤ n) :
    supply idx :: idList supply (idx + 1) (n - 1) = idList supply idx n := by
  cases n with
  | zero => omega
  | succ m => simp [idList]

mutual
/-- For a nowhere-empty supply, the edge targets recorded for a subtree are
the node's own identity (when its parent is active) followed by every
descendant identity. -/
theorem specNode_tgts (supply : Nat → String) (hne : ∀ n, supply n ≠ "")
    (parent : Option String) (idx : Nat) (t : TreeNode) :
    (specNode supply parent idx t).edges.map Prod.snd =
      (selfEdge supply parent idx).map Prod.snd ++
        idList supply (idx + 1) (sizeNode t - 1) := by
  match t with
  | .mk kind fields =>
    have h1 : sizeNode (.mk kind fields) - 1 = sizeFields fields := by
      rw [sizeNode]; omega
    rw [specNode, h1]
    simp [specFields_tgts supply hne (supply idx) (hne idx) (idx + 1) fields]
theorem specFields_tgts (supply : Nat → String) (hne : ∀ n, supply n ≠ "")
    (q : String) (hq : q ≠ "") (idx : Nat) (fs : Fields) :
    (specFields supply (some q) idx fs).edges.map Prod.snd =
      idList supply idx (sizeFields fs) := by
  match fs with
  | .nil => rfl
  | .cons n v rest =>
    rw [specFields, sizeFields, idList_append]
    simp [specFieldValue_tgts supply hne q hq idx v,
      specFields_tgts supply hne q hq (idx + sizeFieldValue v) rest]
theorem specFieldValue_tgts (supply : Nat → String) (hne : ∀ n, supply n ≠ "")
    (q : String) (hq : q ≠ "") (idx : Nat) (v : FieldV) :
    (specFieldValue supply (some q) idx v).edges.map Prod.snd =
      idList supply idx (sizeFieldValue v) := by
  match v with
  | .node t =>
    rw [specFieldValue, sizeFieldValue, specNode_tgts supply hne (some q) idx t,
      ← idList_cons_back supply idx (sizeNode t) (sizeNode_pos t)]
    simp [selfEdge, hq]
  | .flist items => exact specItems_tgts supply hne q hq idx items
  | .scalar s => rfl
theorem specItems_tgts (supply : Nat → String) (hne : ∀ n, supply n ≠ "")
    (q : String) (hq : q ≠ "") (idx : Nat) (items : Items) :
    (specItems supply (some q) idx items).edges.map Prod.snd =
      idList supply idx (sizeItems items) := by
  match items with
  | .nil => rfl
  | .cons (.node t) rest =>
    rw [specItems, sizeItems, idList_append]
    simp only [List.map_append]
    rw [specNode_tgts supply hne (some q) idx t,
      specItems_tgts supply hne q hq (idx + sizeNode t) rest]
    congr 1
    rw [← idList_cons_back supply idx (sizeNode t) (sizeNode_pos t)]
    simp [selfEdge, hq]
  | .cons (.flist l) rest =>
    rw [specItems, sizeItems]
    exact specItems_tgts supply hne q hq idx rest
  | .cons (.scalar s) rest =>
    rw [specItems, sizeItems]
    exact specItems_tgts supply hne q hq idx rest
end

mutual
/-- Every edge recorded for a subtree has as its source either the active
parent identity or the identity of a node inside the subtree. -/
theorem specNode_srcs (supply : Nat → String) (parent : Option String)
    (idx : Nat) (t : TreeNode) :
    ∀ e ∈ (specNode supply parent idx t).edges,
      (∃ q, parent = some q ∧ e.1 = q) ∨
        (∃ i, idx ≤ i ∧ i < idx + sizeNode t ∧ supply i = e.1) := by
  match t with
  | .mk kind fields =>
    intro e he
    rw [specNode] at he
    simp only [List.mem_append] at he
    rcases he with he | he
    · left
      match parent with
      | some q =>
        simp only [selfEdge] at he
        by_cases hq : q = ""
        · rw [if_pos hq] at he; cases he
        · rw [if_neg hq] at he
          simp only [List.mem_singleton] at he
          exact ⟨q, rfl, by rw [he]⟩
      | none => cases he
    · have := specFields_srcs supply (some (supply idx)) (idx + 1) fields e he
      rcases this with ⟨q, hq, hsrc⟩ | ⟨i, h1, h2, h3⟩
      · right
        refine ⟨idx, le_refl idx, ?_, ?_⟩
        · have := sizeNode_pos (TreeNode.mk kind fields); omega
        · cases hq; rw [hsrc]
      · right
        refine ⟨i, by omega, ?_, h3⟩
        rw [sizeNode]
        omega
theorem specFields_srcs (supply : Nat → String) (parent : Option String)
    (idx : Nat) (fs : Fields) :
    ∀ e ∈ (specFields supply parent idx fs).edges,
      (∃ q, parent = some q ∧ e.1 = q) ∨
        (∃ i, idx ≤ i ∧ i < idx + sizeFields fs ∧ supply i = e.1) := by
  match fs with
  | .nil => intro e he; cases he
  | .cons n v rest =>
    intro e he
    rw [specFields] at he
    simp only [List.mem_append] at he
    rcases he with he | he
    · have := specFieldValue_srcs supply parent idx v e he
      rcases this with h | ⟨i, h1, h2, h3⟩
      · exact Or.inl h
      · right
        refine ⟨i, h1, ?_, h3⟩
        rw [sizeFields]
        omega
    · have := specFields_srcs supply parent (idx + sizeFieldValue v) rest e he
      rcases this with h | ⟨i, h1, h2, h3⟩
      · exact Or.inl h
      · right
        refine ⟨i, by omega, ?_, h3⟩
        rw [sizeFields]
        omega
theorem specFieldValue_srcs (supply : Nat → String) (parent : Option String)
    (idx : Nat) (v : FieldV) :
    ∀ e ∈ (specFieldValue supply parent idx v).edges,
      (∃ q, parent = some q ∧ e.1 = q) ∨
        (∃ i, idx ≤ i ∧ i < idx + sizeFieldValue v ∧ supply i = e.1) := by
  match v with
  | .node t => exact specNode_srcs supply parent idx t
  | .flist items => exact specItems_srcs supply parent idx items
  | .scalar s => intro e he; cases he
theorem specItems_srcs (supply : Nat → String) (parent : Option String)
    (idx : Nat) (items : Items) :
    ∀ e ∈ (specItems supply parent idx items).edges,
      (∃ q, parent = some q ∧ e.1 = q) ∨
        (∃ i, idx ≤ i ∧ i < idx + sizeItems items ∧ supply i = e.1) := by
  match items with
  | .nil => intro e he; cases he
  | .cons (.node t) rest =>
    intro e he
    rw [specItems] at he
    simp only [List.mem_append] at he
    rcases he with he | he
    · have := specNode_srcs supply parent idx t e he
      rcases this with h | ⟨i, h1, h2, h3⟩
      · exact Or.inl h
      · right
        refine ⟨i, h1, ?_, h3⟩
        rw [sizeItems]
        omega
    · have := specItems_srcs supply parent (idx + sizeNode t) rest e he
      rcases this with h | ⟨i, h1, h2, h3⟩
      · exact Or.inl h
      · right
        refine ⟨i, by omega, ?_, h3⟩
        rw [sizeItems]
        omega
  | .cons (.flist l) rest =>
    intro e he
    rw [specItems] at he
    have := specItems_srcs supply parent idx rest e he
    rcases this with h | ⟨i, h1, h2, h3⟩
    · exact Or.inl h
    · right
      refine ⟨i, h1, ?_, h3⟩
      rw [sizeItems]
      omega
  | .cons (.scalar s) rest =>
    intro e he
    rw [specItems] at he
    have := specItems_srcs supply parent idx rest e he
    rcases this with h | ⟨i, h1, h2, h3⟩
    · exact Or.inl h
    · right
      refine ⟨i, h1, ?_, h3⟩
      rw [sizeItems]
      omega
end

mutual
/-- The conversion output depends on the supply only through the draws the
subtree actually makes. -/
theorem specNode_congr (s₁ s₂ : Nat → String) (parent : Option String)
    (idx : Nat) (t : TreeNode)
    (h : ∀ i, idx ≤ i → i < idx + sizeNode t → s₁ i = s₂ i) :
    specNode s₁ parent idx t = specNode s₂ parent idx t := by
  match t with
  | .mk kind fields =>
    have hid : s₁ idx = s₂ idx := by
      apply h idx (le_refl idx)
      have := sizeNode_pos (TreeNode.mk kind fields)
      omega
    rw [specNode, specNode, hid]
    have hfs : specFields s₁ (some (s₂ idx)) (idx + 1) fields =
        specFields s₂ (some (s₂ idx)) (idx + 1) fields := by
      apply specFields_congr
      intro i hi1 hi2
      apply h i (by omega)
      rw [sizeNode]
      omega
    rw [hfs]
    have hself : selfEdge s₁ parent idx = selfEdge s₂ parent idx := by
      match parent with
      | some q => simp [selfEdge, hid]
      | none => rfl
    rw [hself]
theorem specFields_congr (s₁ s₂ : Nat → String) (parent : Option String)
    (idx : Nat) (fs : Fields)
    (h : ∀ i, idx ≤ i → i < idx + sizeFields fs → s₁ i = s₂ i) :
    specFields s₁ parent idx fs = specFields s₂ parent idx fs := by
  match fs with
  | .nil => rfl
  | .cons n v rest =>
    rw [specFields, specFields]
    have h1 : specFieldValue s₁ parent idx v = specFieldValue s₂ parent idx v := by
      apply specFieldValue_congr
      intro i hi1 hi2
      apply h i hi1
      rw [sizeFields]
      omega
    have h2 : specFields s₁ parent (idx + sizeFieldValue v) rest =
        specFields s₂ parent (idx + sizeFieldValue v) rest := by
      apply specFields_congr
      intro i hi1 hi2
      apply h i (by omega)
      rw [sizeFields]
      omega
    rw [h1, h2]
theorem specFieldValue_congr (s₁ s₂ : Nat → String) (parent : Option String)
    (idx : Nat) (v : FieldV)
    (h : ∀ i, idx ≤ i → i < idx + sizeFieldValue v → s₁ i = s₂ i) :
    specFieldValue s₁ parent idx v = specFieldValue s₂ parent idx v := by
  match v with
  | .node t => exact specNode_congr s₁ s₂ parent idx t h
  | .flist items => exact specItems_congr s₁ s₂ parent idx items h
  | .scalar s => rfl
theorem specItems_congr (s₁ s₂ : Nat → String) (parent : Option String)
    (idx : Nat) (items : Items)
    (h : ∀ i, idx ≤ i → i < idx + sizeItems items → s₁ i = s₂ i) :
    specItems s₁ parent idx items = specItems s₂ parent idx items := by
  match items with
  | .nil => rfl
  | .cons (.node t) rest =>
    rw [specItems, specItems]
    have h1 : specNode s₁ parent idx t = specNode s₂ parent idx t := by
      apply specNode_congr
      intro i hi1 hi2
      apply h i hi1
      rw [sizeItems]
      omega
    have h2 : specItems s₁ parent (idx + sizeNode t) rest =
        specItems s₂ parent (idx + sizeNode t) rest := by
      apply specItems_congr
      intro i hi1 hi2
      apply h i (by omega)
      rw [sizeItems]
      omega
    rw [h1, h2]
  | .cons (.flist l) rest =>
    rw [specItems, specItems]
    apply specItems_congr
    intro i hi1 hi2
    apply h i hi1
    rw [sizeItems]
    omega
  | .cons (.scalar s) rest =>
    rw [specItems, specItems]
    apply specItems_congr
    intro i hi1 hi2
    apply h i hi1
    rw [sizeItems]
    omega
end

/-- The witness supply is collision-free. -/
theorem supplyW_inj : Function.Injective supplyW := by
  intro a b h
  have hl : (supplyW a).length = (supplyW b).length := by rw [h]
  simp only [supplyW, String.length, List.length_replicate] at hl
  omega

/-- The witness supply never draws the empty string. -/
theorem supplyW_ne : ∀ n, supplyW n ≠ "" := by
  intro n h
  have := congrArg String.data h
  simp [supplyW] at this

/-- C1: for every finite acyclic input tree and every collision-free,
nowhere-empty identity draw sequence, the conversion records exactly one
graph node per tree node reached by the traversal and exactly
`|nodes| - 1` edges; every edge's source is a recorded identity, the root
(the first allocation, visited with no active parent) has no incoming edge,
and every non-root recorded identity has exactly one incoming edge.
Incoming-edge counts are stated as occurrence counts of an identity in the
target projection of the edge list. -/
theorem C1_node_and_edge_counts (supply : Nat → String) (t : TreeNode)
    (hinj : Function.Injective supply) (hne : ∀ n, supply n ≠ "") :
    (convert supply t).nodes.length = sizeNode t ∧
    (convert supply t).edges.length = sizeNode t - 1 ∧
    ((convert supply t).nodes.map Prod.fst).head? = some (supply 0) ∧
    (∀ e ∈ (convert supply t).edges, e.1 ∈ (convert supply t).nodes.map Prod.fst) ∧
    ((convert supply t).edges.map Prod.snd).count (supply 0) = 0 ∧
    (∀ nid ∈ ((convert supply t).nodes.map Prod.fst).tail,
      ((convert supply t).edges.map Prod.snd).count nid = 1) := by
  rw [convert_eq]
  have hids : (specNode supply none 0 t).nodes.map Prod.fst =
      idList supply 0 (sizeNode t) := specNode_ids supply none 0 t
  have htgt : (specNode supply none 0 t).edges.map Prod.snd =
      idList supply 1 (sizeNode t - 1) := by
    have := specNode_tgts supply hne none 0 t
    simpa [selfEdge] using this
  refine ⟨?_, ?_, ?_, ?_, ?_, ?_⟩
  · have := congrArg List.length hids
    simpa [idList_length] using this
  · have := congrArg List.length htgt
    simpa [idList_length] using this
  · show ((specNode supply none 0 t).nodes.map Prod.fst).head? = some (supply 0)
    rw [hids, ← idList_cons_back supply 0 (sizeNode t) (sizeNode_pos t)]
    rfl
  · intro e he
    have := specNode_srcs supply none 0 t e he
    rcases this with ⟨q, hq, _⟩ | ⟨i, h1, h2, h3⟩
    · cases hq
    · show e.1 ∈ (specNode supply none 0 t).nodes.map Prod.fst
      rw [hids, mem_idList]
      exact ⟨i, by omega, by omega, h3⟩
  · show ((specNode supply none 0 t).edges.map Prod.snd).count (supply 0) = 0
    rw [htgt, count_idList supply hinj, if_neg]
    omega
  · intro nid hnid
    show ((specNode supply none 0 t).edges.map Prod.snd).count nid = 1
    have hmem : nid ∈ idList supply 1 (sizeNode t - 1) := by
      have ht : ((specNode supply none 0 t).nodes.map Prod.fst).tail =
          idList supply 1 (sizeNode t - 1) := by
        rw [hids, ← idList_cons_back supply 0 (sizeNode t) (sizeNode_pos t)]
        simp
      rw [ht] at hnid
      exact hnid
    rw [mem_idList] at hmem
    obtain ⟨i, h1, h2, h3⟩ := hmem
    rw [htgt, ← h3, count_idList supply hinj, if_pos]
    omega

/-- Witness for C1: the `x = 42` scenario tree with a concrete collision-free,
nowhere-empty supply. -/
theorem C1_witness :
    (convert supplyW xEq42).nodes.length = sizeNode xEq42 ∧
    (convert supplyW xEq42).edges.length = sizeNode xEq42 - 1 ∧
    ((convert supplyW xEq42).nodes.map Prod.fst).head? = some (supplyW 0) ∧
    (∀ e ∈ (convert supplyW xEq42).edges,
      e.1 ∈ (convert supplyW xEq42).nodes.map Prod.fst) ∧
    ((convert supplyW xEq42).edges.map Prod.snd).count (supplyW 0) = 0 ∧
    (∀ nid ∈ ((convert supplyW xEq42).nodes.map Prod.fst).tail,
      ((convert supplyW xEq42).edges.map Prod.snd).count nid = 1) :=
  C1_node_and_edge_counts supplyW xEq42 supplyW_inj supplyW_ne

/-- C2: the traversal restores the previously active parent identity after
visiting a node's children, and consequently the stateful conversion equals
the pure conversion `specNode` in which the active parent is threaded as an
explicit parameter and every child subtree — whether reached through a
list-valued field or through one of several node-valued fields — is visited
with `some` of its parent node's own identity, so each child's recorded
edge has the common parent's identity as its source, never the identity of
a previously visited sibling's descendant. -/
theorem C2_parent_restored (supply : Nat → String) (t : TreeNode) (st : VisState) :
    (generic_visit supply t st).parent_node = st.parent_node ∧
    convert supply t = specNode supply none 0 t := by
  constructor
  · rw [generic_visit_eq]
  · rw [convert_eq]

/-- C3: for a collision-free draw sequence, the identities recorded within
one conversion run are pairwise distinct. -/
theorem C3_identities_distinct (supply : Nat → String) (t : TreeNode)
    (hinj : Function.Injective supply) :
    ((convert supply t).nodes.map Prod.fst).Nodup := by
  rw [convert_eq]
  show ((specNode supply none 0 t).nodes.map Prod.fst).Nodup
  rw [specNode_ids]
  exact nodup_idList supply hinj 0 (sizeNode t)

/-- Witness for C3: the scenario tree with a concrete collision-free supply. -/
theorem C3_witness : ((convert supplyW xEq42).nodes.map Prod.fst).Nodup :=
  C3_identities_distinct supplyW xEq42 supplyW_inj

/-- C4: converting the `x = 42` scenario tree yields exactly the root plus
the assignment, name and literal nodes (4 nodes) and 3 edges. -/
theorem C4_x_eq_42_scenario :
    convert supplyNum xEq42 =
      { nodes := [("id0", "Module"), ("id1", "Assign"), ("id2", "Name\nid=x"),
                  ("id3", "Constant\nvalue=42")],
        edges := [("id0", "id1"), ("id1", "id2"), ("id1", "id3")] } ∧
    (convert supplyNum xEq42).nodes.length = 4 ∧
    (convert supplyNum xEq42).edges.length = 3 := by
  refine ⟨?_, ?_, ?_⟩ <;> rfl

/-- C7 (amended): each conversion run is deterministic given its input tree
and the identity draws it makes — two runs whose draw sequences agree on the
first `sizeNode t` draws produce identical output. -/
theorem C7_deterministic_given_draws (s₁ s₂ : Nat → String) (t : TreeNode)
    (h : ∀ i < sizeNode t, s₁ i = s₂ i) :
    convert s₁ t = convert s₂ t := by
  rw [convert_eq, convert_eq,
    specNode_congr s₁ s₂ none 0 t (fun i h1 h2 => h i (by omega))]

/-- Witness for C7: two supplies that agree on the four draws made for the
scenario tree produce identical conversions. -/
theorem C7_witness : convert supplyA xEq42 = convert supplyB xEq42 :=
  C7_deterministic_given_draws supplyA supplyB xEq42 (by decide)

/-- Counterexample for C7 as stated: conversion draws its identities from a
random source, so two runs on the same input need not produce identical
outputs — two legitimate draw sequences give different graphs for the same
one-node tree. -/
theorem C7_counterexample :
    convert (fun _ => "a") (.mk "Module" .nil) ≠
      convert (fun _ => "b") (.mk "Module" .nil) := by
  decide

/-- Single-character replacement distributes over concatenation. -/
theorem replaceChar_append (o : Char) (n a b : List Char) :
    replaceChar o n (a ++ b) = replaceChar o n a ++ replaceChar o n b := by
  induction a with
  | nil => rfl
  | cons c cs ih => simp [replaceChar, ih]

/-- The four-stage replacement chain distributes over concatenation. -/
theorem escapeChain_append (a b : List Char) :
    escapeChain (a ++ b) = escapeChain a ++ escapeChain b := by
  simp [escapeChain, replaceChar_append]

/-- On a single character the chain acts exactly like the single-pass map:
`&amp;` is produced before the `<`/`>` stages run but contains neither, and
`&lt;`/`&gt;`/`<br/>` are produced only after the stages that could touch
them have already run, so no escape output is ever re-escaped. -/
theorem escapeChain_single (c : Char) : escapeChain [c] = escapeCharSpec c := by
  by_cases h1 : c = '&'
  · subst h1; decide
  by_cases h2 : c = '<'
  · subst h2; decide
  by_cases h3 : c = '>'
  · subst h3; decide
  by_cases h4 : c = '\n'
  · subst h4; decide
  simp [escapeChain, replaceChar, escapeCharSpec, h1, h2, h3, h4]

/-- The whole chain equals the single-pass per-character escape. -/
theorem escapeChain_eq (l : List Char) :
    escapeChain l = concatMapChars escapeCharSpec l := by
  induction l with
  | nil => rfl
  | cons c cs ih =>
    have hsplit : c :: cs = [c] ++ cs := rfl
    rw [hsplit, escapeChain_append, ih, escapeChain_single]
    rfl

/-- C8: the renderer's successive replacements — ampersand first, then
less-than, then greater-than, and line breaks only afterwards — coincide
with a single pass that maps each original character to its entity or break
token, so no escape output is ever re-escaped; on the scenario content the
result is markup-safe with the break token substituted. -/
theorem C8_escape_order :
    (∀ s, escapeContent s = escapeOnePass s) ∧
    escapeContent "a<b\n&c>d" = "a&lt;b<br/>&amp;c&gt;d" := by
  constructor
  · intro s
    rw [escapeContent, escapeOnePass, escapeChain_eq]
  · decide

/-- Keys absent from an association list look up to `none`. -/
theorem lookup_eq_none_of_not_mem {α : Type} (k : String) (l : List (String × α))
    (h : k ∉ l.map Prod.fst) : l.lookup k = none := by
  induction l with
  | nil => rfl
  | cons p rest ih =>
    obtain ⟨a, b⟩ := p
    simp only [List.map_cons, List.mem_cons] at h
    push_neg at h
    have hb : (k == a) = false := beq_eq_false_iff_ne.mpr h.1
    simp [List.lookup, hb, ih h.2]

/-- C10: classification lookups are total — a kind absent from the category
catalog classifies as the default `ATTRIBUTE` (so `colorize` styles it with
the attribute color), and a kind absent from the explanation catalog gets
the empty explanation regardless of the annotation toggle. -/
theorem C10_unknown_kind_defaults (kind text : String) (se : Bool)
    (hc : kind ∉ NODE_CATEGORIES.map Prod.fst)
    (he : kind ∉ NODE_EXPLANATIONS.map Prod.fst) :
    categoryOf kind = "ATTRIBUTE" ∧
    colorize kind text = Colors.ATTRIBUTE ++ text ++ Colors.RESET ∧
    get_explanation kind se = "" := by
  have h1 : categoryOf kind = "ATTRIBUTE" := by
    rw [categoryOf, lookup_eq_none_of_not_mem kind NODE_CATEGORIES hc]
    rfl
  refine ⟨h1, ?_, ?_⟩
  · rw [colorize, h1]
    rfl
  · cases se <;>
      simp [get_explanation, lookup_eq_none_of_not_mem kind NODE_EXPLANATIONS he]

/-- Witness for C10: `Lambda` appears in neither catalog. -/
theorem C10_witness :
    categoryOf "Lambda" = "ATTRIBUTE" ∧
    colorize "Lambda" "Lambda" = Colors.ATTRIBUTE ++ "Lambda" ++ Colors.RESET ∧
    get_explanation "Lambda" true = "" :=
  C10_unknown_kind_defaults "Lambda" "Lambda" true (by decide) (by decide)

/-- C6 (amended): when the upstream parse fails, `visualize_ast` never runs
the visitor and returns a renderable error message derived from the error
value by prefixing `"Syntax Error: "`; no graph artifact is produced. -/
theorem C6_parse_failure (parse : String → Except String TreeNode)
    (supply : Nat → String) (code e : String) (h : parse code = .error e) :
    visualize_ast parse supply code = .message ("Syntax Error: " ++ e) ∧
    ∀ g, visualize_ast parse supply code ≠ .image g := by
  constructor
  · rw [visualize_ast, h]
  · intro g
    rw [visualize_ast, h]
    intro hcontra
    cases hcontra

/-- Witness for C6: a parser stub that fails with a fixed error value. -/
theorem C6_witness :
    visualize_ast parseFail supplyNum "x =" =
      .message ("Syntax Error: " ++ "invalid syntax") :=
  (C6_parse_failure parseFail supplyNum "x =" "invalid syntax" rfl).1

/-- Counterexample for C6 as stated: the error value is not passed through
unmodified — the returned message carries a `"Syntax Error: "` prefix in
front of the error value. -/
theorem C6_counterexample :
    parseFail "x =" = .error "invalid syntax" ∧
    visualize_ast parseFail supplyNum "x =" ≠ .message "invalid syntax" ∧
    visualize_ast parseFail supplyNum "x =" = .message "Syntax Error: invalid syntax" := by
  refine ⟨rfl, ?_, rfl⟩
  decide

/-- C9: node styling is selected by the special marker — `initial` renders as
a circle with green start styling, `terminal` as a doublecircle with red end
styling, and any other marker keeps the default box/lightblue/darkblue — and
an edge carries its condition verbatim as its label when the condition is
present (truthy, i.e. a non-empty string), otherwise it is unlabeled. -/
theorem C9_cfg_rendering (cfg : ControlFlowGraph) (n : CFGNode) (e : CFGEdge)
    (hn : n ∈ cfg.nodes) (he : e ∈ cfg.edges) :
    drawNode n ∈ (draw_cfg cfg).1 ∧
    drawEdge e ∈ (draw_cfg cfg).2 ∧
    (n.special = "initial" → drawNode n =
      { id := toString n.id, label := "<" ++ escapeContent n.content ++ ">",
        shape := "circle", fillcolor := "lightgreen", color := "darkgreen" }) ∧
    (n.special = "terminal" → drawNode n =
      { id := toString n.id, label := "<" ++ escapeContent n.content ++ ">",
        shape := "doublecircle", fillcolor := "mistyrose", color := "darkred" }) ∧
    (n.special ≠ "initial" → n.special ≠ "terminal" → drawNode n =
      { id := toString n.id, label := "<" ++ escapeContent n.content ++ ">",
        shape := "box", fillcolor := "lightblue", color := "darkblue" }) ∧
    (∀ c, e.condition = some c → c ≠ "" → drawEdge e =
      { source := toString e.source, target := toString e.target, label := some c }) ∧
    (e.condition = none → drawEdge e =
      { source := toString e.source, target := toString e.target, label := none }) := by
  refine ⟨List.mem_map_of_mem drawNode hn, List.mem_map_of_mem drawEdge he,
    ?_, ?_, ?_, ?_, ?_⟩
  · intro h
    simp [drawNode, h]
  · intro h
    simp [drawNode, h]
  · intro h1 h2
    simp [drawNode, h1, h2]
  · intro c hc hcne
    simp [drawEdge, hc, hcne]
  · intro hc
    simp [drawEdge, hc]

/-- Witness for C9: the scenario CFG — an initial node, a terminal node, a
plain node, one unconditional edge and one edge with condition
`i % 2 == 0` carried verbatim. -/
theorem C9_witness :
    drawNode cfgNode0 =
      { id := "0", label := "<start>", shape := "circle",
        fillcolor := "lightgreen", color := "darkgreen" } ∧
    drawNode cfgNode1 =
      { id := "1", label := "<end>", shape := "doublecircle",
        fillcolor := "mistyrose", color := "darkred" } ∧
    drawNode cfgNode2 =
      { id := "2", label := "<i = i + 1>", shape := "box",
        fillcolor := "lightblue", color := "darkblue" } ∧
    drawEdge cfgEdge0 = { source := "0", target := "2", label := none } ∧
    drawEdge cfgEdge1 = { source := "2", target := "1", label := some "i % 2 == 0" } := by
  have h0 := C9_cfg_rendering cfgW cfgNode0 cfgEdge0 (by decide) (by decide)
  have h1 := C9_cfg_rendering cfgW cfgNode1 cfgEdge1 (by decide) (by decide)
  refine ⟨?_, ?_, ?_, ?_, ?_⟩
  · exact h0.2.2.1 rfl
  · exact h1.2.2.2.1 rfl
  · exact (C9_cfg_rendering cfgW cfgNode2 cfgEdge0 (by decide) (by decide)).2.2.2.2.1
      (by decide) (by decide)
  · exact h0.2.2.2.2.2.2 rfl
  · exact h1.2.2.2.2.2.1 "i % 2 == 0" rfl (by decide)

/-- Character counts distribute over string concatenation. -/
theorem countChar_append (c : Char) (a b : String) :
    countChar c (a ++ b) = countChar c a + countChar c b := by
  simp [countChar, List.count_append]

/-- A clean string contains none of the five special characters. -/
theorem cleanStr_counts (s : String) (h : cleanStr s = true) :
    countChar '(' s = 0 ∧ countChar ')' s = 0 ∧ countChar '[' s = 0 ∧
    countChar ']' s = 0 ∧ countChar '\x1b' s = 0 := by
  rw [cleanStr, List.all_eq_true] at h
  refine ⟨?_, ?_, ?_, ?_, ?_⟩ <;>
    · rw [countChar, List.count_eq_zero]
      intro hmem
      have := h _ hmem
      simp at this

/-- The repeated two-space indent string is clean. -/
theorem strMul_clean (s : String) (hs : cleanStr s = true) :
    ∀ n, cleanStr (strMul s n) = true := by
  intro n
  induction n with
  | zero => rfl
  | succ m ih =>
    rw [strMul, cleanStr]
    simp only [String.data_append, List.all_append, Bool.and_eq_true]
    exact ⟨hs, ih⟩

/-- A defaulted association-list lookup yields the default or a table value. -/
theorem lookup_getD_mem {α : Type} (l : List (String × α)) (k : String) (d : α) :
    (l.lookup k).getD d ∈ d :: l.map Prod.snd := by
  induction l with
  | nil => simp [List.lookup]
  | cons p rest ih =>
    obtain ⟨a, b⟩ := p
    by_cases hk : (k == a) = true
    · simp [List.lookup, hk]
    · have hk' : (k == a) = false := by
        revert hk; cases (k == a) <;> simp
      simp only [List.lookup, hk', List.map_cons]
      rcases List.mem_cons.mp ih with h | h
      · simp [h]
      · simp only [List.mem_cons]
        right
        right
        exact h

/-- Bracket-character counts of every color escape reachable through
`categoryOf`: one `[` and one escape character, no parentheses and no `]`. -/
theorem colorFor_counts (cat : String)
    (h : cat ∈ "ATTRIBUTE" :: NODE_CATEGORIES.map Prod.snd) :
    countChar '(' (colorFor cat) = 0 ∧ countChar ')' (colorFor cat) = 0 ∧
    countChar '[' (colorFor cat) = 1 ∧ countChar ']' (colorFor cat) = 0 ∧
    countChar '\x1b' (colorFor cat) = 1 := by
  simp only [NODE_CATEGORIES, List.map_cons, List.map_nil, List.mem_cons,
    List.not_mem_nil, or_false] at h
  rcases h with rfl | rfl | rfl | rfl | rfl | rfl | rfl | rfl | rfl | rfl | rfl |
    rfl | rfl | rfl | rfl | rfl <;> decide

/-- Bracket-character counts of a colorized clean text: the two escape codes
contribute two `[` and two escape characters, nothing else. -/
theorem colorize_counts (k text : String) (ht : cleanStr text = true) :
    countChar '(' (colorize k text) = 0 ∧ countChar ')' (colorize k text) = 0 ∧
    countChar '[' (colorize k text) = 2 ∧ countChar ']' (colorize k text) = 0 ∧
    countChar '\x1b' (colorize k text) = 2 := by
  obtain ⟨c1, c2, c3, c4, c5⟩ :=
    colorFor_counts (categoryOf k) (lookup_getD_mem NODE_CATEGORIES k "ATTRIBUTE")
  obtain ⟨t1, t2, t3, t4, t5⟩ := cleanStr_counts text ht
  have r : countChar '(' Colors.RESET = 0 ∧ countChar ')' Colors.RESET = 0 ∧
      countChar '[' Colors.RESET = 1 ∧ countChar ']' Colors.RESET = 0 ∧
      countChar '\x1b' Colors.RESET = 1 := by decide
  obtain ⟨r1, r2, r3, r4, r5⟩ := r
  rw [colorize]
  simp only [countChar_append]
  omega

/-- Counts of the explanation annotation: balanced parentheses, no brackets,
no escape characters, for every kind and either toggle value. -/
theorem get_explanation_counts (k : String) (se : Bool) :
    countChar '(' (get_explanation k se) = countChar ')' (get_explanation k se) ∧
    countChar '[' (get_explanation k se) = 0 ∧
    countChar ']' (get_explanation k se) = 0 ∧
    countChar '\x1b' (get_explanation k se) = 0 := by
  cases se with
  | false => simp [get_explanation, countChar]
  | true =>
    have h := lookup_getD_mem NODE_EXPLANATIONS k ""
    have hg : get_explanation k true =
        (if (NODE_EXPLANATIONS.lookup k).getD "" ≠ "" then
          " # " ++ (NODE_EXPLANATIONS.lookup k).getD "" else "") := by
      rw [get_explanation]
      rfl
    rw [hg]
    revert h
    generalize (NODE_EXPLANATIONS.lookup k).getD "" = expl
    intro h
    simp only [NODE_EXPLANATIONS, List.map_cons, List.map_nil, List.mem_cons,
      List.not_mem_nil, or_false] at h
    rcases h with rfl | rfl | rfl | rfl | rfl | rfl | rfl | rfl | rfl | rfl |
      rfl | rfl | rfl <;> decide

/-- Counts of the annotated kind token: balanced parentheses, and exactly
the two styling escapes' worth of `[` and escape characters. -/
theorem prettifyHead_counts (k : String) (se : Bool) (hk : cleanStr k = true) :
    countChar '(' (prettifyHead k se) = countChar ')' (prettifyHead k se) ∧
    countChar '[' (prettifyHead k se) = 2 ∧
    countChar ']' (prettifyHead k se) = 0 ∧
    countChar '\x1b' (prettifyHead k se) = 2 := by
  obtain ⟨c1, c2, c3, c4, c5⟩ := colorize_counts k k hk
  obtain ⟨e1, e2, e3, e4⟩ := get_explanation_counts k se
  rw [prettifyHead]
  by_cases h : get_explanation k se ≠ ""
  · rw [if_pos h]
    simp only [countChar_append]
    omega
  · rw [if_neg h]
    omega

/-- Count of a character in a joined list of strings. -/
theorem countChar_joinSep (c : Char) (sep : String) (l : List String) :
    countChar c (joinSep sep l) =
      (l.map (countChar c)).sum + countChar c sep * (l.length - 1) := by
  induction l with
  | nil => simp [joinSep, countChar]
  | cons x xs ih =>
    cases xs with
    | nil => simp [joinSep]
    | cons y ys =>
      rw [joinSep, countChar_append, countChar_append, ih]
      have h1 : (y :: ys).length - 1 = ys.length := by simp
      have h2 : (x :: y :: ys).length - 1 = ys.length + 1 := by simp
      rw [h1, h2]
      simp only [List.map_cons, List.sum_cons]
      ring

/-- Congruent maps have equal sums. -/
theorem sum_map_congr {α : Type} (l : List α) (f g : α → Nat)
    (h : ∀ a ∈ l, f a = g a) : (l.map f).sum = (l.map g).sum := by
  induction l with
  | nil => rfl
  | cons x xs ih =>
    simp only [List.map_cons, List.sum_cons]
    rw [h x (List.mem_cons_self x xs), ih (fun a ha => h a (List.mem_cons_of_mem x ha))]

/-- Sum of a pointwise addition of maps. -/
theorem sum_map_add {α : Type} (l : List α) (f g : α → Nat) :
    (l.map (fun a => f a + g a)).sum = (l.map f).sum + (l.map g).sum := by
  induction l with
  | nil => rfl
  | cons x xs ih =>
    simp only [List.map_cons, List.sum_cons, ih]
    omega

/-- The printed form of a node with no fields is just the annotated token. -/
theorem prettify_dict_nil (k : String) (L : Nat) (se : Bool) :
    prettify_dict (.mk k .nil) L se = prettifyHead k se := by
  rfl

/-- The printed form of a node with fields: annotated token, opening
parenthesis, the comma-joined field lines, and the closing parenthesis on its
own line at the node's indentation. -/
theorem prettify_dict_cons (k n : String) (v : FieldV) (rest : Fields) (L : Nat)
    (se : Bool) :
    prettify_dict (.mk k (.cons n v rest)) L se =
      prettifyHead k se ++ "(" ++ "\n" ++
        joinSep ",\n" (prettify_fields (.cons n v rest) (strMul "  " L) L se) ++
        "\n" ++ strMul "  " L ++ ")" := by
  have hne : prettify_fields (.cons n v rest) (strMul "  " L) L se ≠ [] := by
    rw [prettify_fields.eq_def]
    simp
  rw [prettify_dict.eq_def]
  simp only [if_neg hne]

mutual
/-- Balance of the whole printed form of a clean tree: equal numbers of `(`
and `)`, and every `[` matched by `]` except the one inside each styling
escape. -/
theorem prettify_dict_bal (t : TreeNode) (L : Nat) (se : Bool)
    (h : cleanTree t = true) :
    countChar '(' (prettify_dict t L se) = countChar ')' (prettify_dict t L se) ∧
    countChar '[' (prettify_dict t L se) =
      countChar ']' (prettify_dict t L se) +
        countChar '\x1b' (prettify_dict t L se) := by
  match t with
  | .mk k fields =>
    rw [cleanTree] at h
    simp only [Bool.and_eq_true] at h
    obtain ⟨hk, hf⟩ := h
    match fields with
    | .nil =>
      rw [prettify_dict_nil]
      obtain ⟨p1, p2, p3, p4⟩ := prettifyHead_counts k se hk
      omega
    | .cons n v rest =>
      rw [prettify_dict_cons]
      have hclean := strMul_clean "  " (by decide) L
      have hfs := prettify_fields_bal (.cons n v rest) (strMul "  " L) L se hf hclean
      obtain ⟨p1, p2, p3, p4⟩ := prettifyHead_counts k se hk
      obtain ⟨i1, i2, i3, i4, i5⟩ := cleanStr_counts (strMul "  " L) hclean
      obtain ⟨s1, s2, s3, s4, s5⟩ := cleanStr_counts ",\n" (by decide)
      have hsum1 : ((prettify_fields (.cons n v rest) (strMul "  " L) L se).map
          (countChar '(')).sum =
          ((prettify_fields (.cons n v rest) (strMul "  " L) L se).map
          (countChar ')')).sum :=
        sum_map_congr _ _ _ (fun a ha => (hfs a ha).1)
      have hsum2 : ((prettify_fields (.cons n v rest) (strMul "  " L) L se).map
          (countChar '[')).sum =
          ((prettify_fields (.cons n v rest) (strMul "  " L) L se).map
          (countChar ']')).sum +
          ((prettify_fields (.cons n v rest) (strMul "  " L) L se).map
          (countChar '\x1b')).sum := by
        rw [← sum_map_add]
        exact sum_map_congr _ _ _ (fun a ha => (hfs a ha).2)
      have j1 : countChar '(' (joinSep ",\n"
          (prettify_fields (.cons n v rest) (strMul "  " L) L se)) =
          ((prettify_fields (.cons n v rest) (strMul "  " L) L se).map
          (countChar '(')).sum := by
        rw [countChar_joinSep, s1]; ring
      have j2 : countChar ')' (joinSep ",\n"
          (prettify_fields (.cons n v rest) (strMul "  " L) L se)) =
          ((prettify_fields (.cons n v rest) (strMul "  " L) L se).map
          (countChar ')')).sum := by
        rw [countChar_joinSep, s2]; ring
      have j3 : countChar '[' (joinSep ",\n"
          (prettify_fields (.cons n v rest) (strMul "  " L) L se)) =
          ((prettify_fields (.cons n v rest) (strMul "  " L) L se).map
          (countChar '[')).sum := by
        rw [countChar_joinSep, s3]; ring
      have j4 : countChar ']' (joinSep ",\n"
          (prettify_fields (.cons n v rest) (strMul "  " L) L se)) =
          ((prettify_fields (.cons n v rest) (strMul "  " L) L se).map
          (countChar ']')).sum := by
        rw [countChar_joinSep, s4]; ring
      have j5 : countChar '\x1b' (joinSep ",\n"
          (prettify_fields (.cons n v rest) (strMul "  " L) L se)) =
          ((prettify_fields (.cons n v rest) (strMul "  " L) L se).map
          (countChar '\x1b')).sum := by
        rw [countChar_joinSep, s5]; ring
      obtain ⟨lp1, lp2, lp3, lp4, lp5⟩ := (by decide :
        countChar '(' "(" = 1 ∧ countChar ')' "(" = 0 ∧ countChar '[' "(" = 0 ∧
        countChar ']' "(" = 0 ∧ countChar '\x1b' "(" = 0)
      obtain ⟨rp1, rp2, rp3, rp4, rp5⟩ := (by decide :
        countChar '(' ")" = 0 ∧ countChar ')' ")" = 1 ∧ countChar '[' ")" = 0 ∧
        countChar ']' ")" = 0 ∧ countChar '\x1b' ")" = 0)
      obtain ⟨nl1, nl2, nl3, nl4, nl5⟩ := (by decide :
        countChar '(' "\n" = 0 ∧ countChar ')' "\n" = 0 ∧ countChar '[' "\n" = 0 ∧
        countChar ']' "\n" = 0 ∧ countChar '\x1b' "\n" = 0)
      constructor <;>
      · simp only [countChar_append, j1, j2, j3, j4, j5]
        omega
theorem prettify_fields_bal (fs : Fields) (indent : String) (L : Nat) (se : Bool)
    (hfs : cleanFields fs = true) (hind : cleanStr indent = true) :
    ∀ s ∈ prettify_fields fs indent L se,
      countChar '(' s = countChar ')' s ∧
      countChar '[' s = countChar ']' s + countChar '\x1b' s := by
  match fs with
  | .nil =>
    intro s hs
    rw [prettify_fields.eq_def] at hs
    simp at hs
  | .cons name v rest =>
    rw [cleanFields] at hfs
    simp only [Bool.and_eq_true] at hfs
    obtain ⟨⟨hname, hv⟩, hrest⟩ := hfs
    intro s hs
    rw [prettify_fields.eq_def] at hs
    simp only [List.mem_cons] at hs
    rcases hs with rfl | hs
    · obtain ⟨n1, n2, n3, n4, n5⟩ := cleanStr_counts name hname
      obtain ⟨i1, i2, i3, i4, i5⟩ := cleanStr_counts indent hind
      obtain ⟨b1, b2, b3, b4, b5⟩ := cleanStr_counts "  " (by decide)
      obtain ⟨q1, q2, q3, q4, q5⟩ := cleanStr_counts "=" (by decide)
      match v with
      | .node t =>
        obtain ⟨d1, d2⟩ := prettify_dict_bal t (L + 1) se hv
        constructor <;>
        · simp only [countChar_append]
          omega
      | .flist .nil =>
        obtain ⟨e1, e2, e3, e4, e5⟩ := (by decide :
          countChar '(' "=[]" = 0 ∧ countChar ')' "=[]" = 0 ∧
          countChar '[' "=[]" = 1 ∧ countChar ']' "=[]" = 1 ∧
          countChar '\x1b' "=[]" = 0)
        constructor <;>
        · simp only [countChar_append]
          omega
      | .flist (.cons i irest) =>
        have hit := prettify_items_bal (.cons i irest) L se hv
        obtain ⟨a1, a2, a3, a4, a5⟩ := (by decide :
          countChar '(' "=[\n" = 0 ∧ countChar ')' "=[\n" = 0 ∧
          countChar '[' "=[\n" = 1 ∧ countChar ']' "=[\n" = 0 ∧
          countChar '\x1b' "=[\n" = 0)
        obtain ⟨c1, c2, c3, c4, c5⟩ := (by decide :
          countChar '(' "  ]" = 0 ∧ countChar ')' "  ]" = 0 ∧
          countChar '[' "  ]" = 0 ∧ countChar ']' "  ]" = 1 ∧
          countChar '\x1b' "  ]" = 0)
        obtain ⟨f1, f2, f3, f4, f5⟩ := (by decide :
          countChar '(' "    " = 0 ∧ countChar ')' "    " = 0 ∧
          countChar '[' "    " = 0 ∧ countChar ']' "    " = 0 ∧
          countChar '\x1b' "    " = 0)
        obtain ⟨s1, s2, s3, s4, s5⟩ := cleanStr_counts ",\n" (by decide)
        obtain ⟨nl1, nl2, nl3, nl4, nl5⟩ := (by decide :
          countChar '(' "\n" = 0 ∧ countChar ')' "\n" = 0 ∧ countChar '[' "\n" = 0 ∧
          countChar ']' "\n" = 0 ∧ countChar '\x1b' "\n" = 0)
        have sep1 : countChar '(' (",\n" ++ indent ++ "    ") = 0 := by
          simp only [countChar_append]; omega
        have sep2 : countChar ')' (",\n" ++ indent ++ "    ") = 0 := by
          simp only [countChar_append]; omega
        have sep3 : countChar '[' (",\n" ++ indent ++ "    ") = 0 := by
          simp only [countChar_append]; omega
        have sep4 : countChar ']' (",\n" ++ indent ++ "    ") = 0 := by
          simp only [countChar_append]; omega
        have sep5 : countChar '\x1b' (",\n" ++ indent ++ "    ") = 0 := by
          simp only [countChar_append]; omega
        have hsum1 : ((prettify_items (.cons i irest) L se).map
            (countChar '(')).sum =
            ((prettify_items (.cons i irest) L se).map (countChar ')')).sum :=
          sum_map_congr _ _ _ (fun a ha => (hit a ha).1)
        have hsum2 : ((prettify_items (.cons i irest) L se).map
            (countChar '[')).sum =
            ((prettify_items (.cons i irest) L se).map (countChar ']')).sum +
            ((prettify_items (.cons i irest) L se).map (countChar '\x1b')).sum := by
          rw [← sum_map_add]
          exact sum_map_congr _ _ _ (fun a ha => (hit a ha).2)
        have j1 : countChar '(' (joinSep (",\n" ++ indent ++ "    ")
            (prettify_items (.cons i irest) L se)) =
            ((prettify_items (.cons i irest) L se).map (countChar '(')).sum := by
          rw [countChar_joinSep, sep1]; ring
        have j2 : countChar ')' (joinSep (",\n" ++ indent ++ "    ")
            (prettify_items (.cons i irest) L se)) =
            ((prettify_items (.cons i irest) L se).map (countChar ')')).sum := by
          rw [countChar_joinSep, sep2]; ring
        have j3 : countChar '[' (joinSep (",\n" ++ indent ++ "    ")
            (prettify_items (.cons i irest) L se)) =
            ((prettify_items (.cons i irest) L se).map (countChar '[')).sum := by
          rw [countChar_joinSep, sep3]; ring
        have j4 : countChar ']' (joinSep (",\n" ++ indent ++ "    ")
            (prettify_items (.cons i irest) L se)) =
            ((prettify_items (.cons i irest) L se).map (countChar ']')).sum := by
          rw [countChar_joinSep, sep4]; ring
        have j5 : countChar '\x1b' (joinSep (",\n" ++ indent ++ "    ")
            (prettify_items (.cons i irest) L se)) =
            ((prettify_items (.cons i irest) L se).map (countChar '\x1b')).sum := by
          rw [countChar_joinSep, sep5]; ring
        constructor <;>
        · simp only [countChar_append, j1, j2, j3, j4, j5]
          omega
      | .scalar s0 =>
        obtain ⟨r1, r2, r3, r4, r5⟩ := cleanStr_counts (reprScalar s0) hv
        constructor <;>
        · simp only [countChar_append]
          omega
    · exact prettify_fields_bal rest indent L se hrest hind s hs
theorem prettify_items_bal (items : Items) (L : Nat) (se : Bool)
    (h : cleanItems items = true) :
    ∀ s ∈ prettify_items items L se,
      countChar '(' s = countChar ')' s ∧
      countChar '[' s = countChar ']' s + countChar '\x1b' s := by
  match items with
  | .nil =>
    intro s hs
    rw [prettify_items.eq_def] at hs
    simp at hs
  | .cons (.node t) rest =>
    rw [cleanItems] at h
    simp only [Bool.and_eq_true] at h
    obtain ⟨ht, hrest⟩ := h
    intro s hs
    rw [prettify_items.eq_def] at hs
    simp only [List.mem_cons] at hs
    rcases hs with rfl | hs
    · exact prettify_dict_bal t (L + 2) se ht
    · exact prettify_items_bal rest L se hrest s hs
  | .cons (.flist l) rest =>
    rw [cleanItems] at h
    exact absurd h (by decide)
  | .cons (.scalar s0) rest =>
    rw [cleanItems] at h
    simp only [Bool.and_eq_true] at h
    obtain ⟨hs0, hrest⟩ := h
    intro s hs
    rw [prettify_items.eq_def] at hs
    simp only [List.mem_cons] at hs
    rcases hs with rfl | hs
    · have hrw : reprFieldValue (FieldV.scalar s0) = reprScalar s0 := rfl
      rw [hrw]
      obtain ⟨r1, r2, r3, r4, r5⟩ := cleanStr_counts (reprScalar s0) hs0
      constructor <;> omega
    · exact prettify_items_bal rest L se hrest s hs
end

/-- C5 (amended): for clean inputs — kind tags, field names and scalar
representations free of bracket characters, list items being nodes or
scalars — a node with an empty field mapping prints (with annotations
disabled) as exactly the styled kind token with no parentheses, and a node
with a non-empty field mapping prints with as many `(` as `)` and every
list `[` matched by a `]` (the only unmatched `[` being the one inside each
ANSI styling escape, counted by the escape character), with the closing
parenthesis on its own line at the node's own indentation level. -/
theorem C5_printer_output_shape (t : TreeNode) (L : Nat) (se : Bool)
    (h : cleanTree t = true) :
    (fieldsEmpty t = true → se = false →
      prettify_dict t L se = colorize (kindOf t) (kindOf t) ∧
      countChar '(' (prettify_dict t L se) = 0 ∧
      countChar ')' (prettify_dict t L se) = 0) ∧
    (fieldsEmpty t = false →
      (countChar '(' (prettify_dict t L se) = countChar ')' (prettify_dict t L se) ∧
       countChar '[' (prettify_dict t L se) =
         countChar ']' (prettify_dict t L se) +
           countChar '\x1b' (prettify_dict t L se)) ∧
      ∃ p, prettify_dict t L se = p ++ ("\n" ++ strMul "  " L ++ ")")) := by
  match t with
  | .mk k .nil =>
    constructor
    · intro hemp hse
      subst hse
      rw [cleanTree] at h
      simp only [Bool.and_eq_true] at h
      obtain ⟨hk, hf⟩ := h
      obtain ⟨c1, c2, c3, c4, c5⟩ := colorize_counts k k hk
      have hpr : prettify_dict (.mk k .nil) L false = colorize k k := by
        rw [prettify_dict_nil, prettifyHead]
        simp [get_explanation]
      refine ⟨hpr, ?_, ?_⟩ <;> rw [hpr]
      · exact c1
      · exact c2
    · intro hne
      simp [fieldsEmpty] at hne
  | .mk k (.cons n v rest) =>
    constructor
    · intro hemp hse
      simp [fieldsEmpty] at hemp
    · intro hne
      refine ⟨prettify_dict_bal (.mk k (.cons n v rest)) L se h, ?_⟩
      rw [prettify_dict_cons]
      refine ⟨prettifyHead k se ++ "(" ++ "\n" ++
        joinSep ",\n" (prettify_fields (.cons n v rest) (strMul "  " L) L se), ?_⟩
      simp [String.append_assoc]

/-- Counterexample for C5 as stated: with explanation annotations enabled, a
field-less `FunctionDef` node prints with its catalog explanation appended,
which contains a parenthesis — so the output of an empty-field node is not
parenthesis-free and is more than the styled kind token. -/
theorem C5_counterexample :
    fieldsEmpty (.mk "FunctionDef" .nil) = true ∧
    countChar '(' (prettify_dict (.mk "FunctionDef" .nil) 0 true) ≠ 0 := by
  constructor
  · rfl
  · decide

/-- Witness for C5: a field-less `Store` node and the `x = 42` scenario tree
at indentation level 1, both clean. -/
theorem C5_witness :
    (prettify_dict storeNode 0 false =
        colorize (kindOf storeNode) (kindOf storeNode) ∧
      countChar '(' (prettify_dict storeNode 0 false) = 0 ∧
      countChar ')' (prettify_dict storeNode 0 false) = 0) ∧
    ((countChar '(' (prettify_dict xEq42 1 false) =
        countChar ')' (prettify_dict xEq42 1 false) ∧
      countChar '[' (prettify_dict xEq42 1 false) =
        countChar ']' (prettify_dict xEq42 1 false) +
          countChar '\x1b' (prettify_dict xEq42 1 false)) ∧
      ∃ p, prettify_dict xEq42 1 false = p ++ ("\n" ++ strMul "  " 1 ++ ")")) :=
  ⟨(C5_printer_output_shape storeNode 0 false (by decide)).1 (by decide) rfl,
   (C5_printer_output_shape xEq42 1 false (by decide)).2 (by decide)⟩
